import Mathlib

/-!
Verification of the suggestion-generation engine of the Infinity Idea
Generator (src/script.js) against its natural-language specification.

The JavaScript source is shallowly embedded: `Math.random()` draws are
modelled by an explicit oracle (`RandSrc`) supplying, for each draw site,
the value of `Math.floor(Math.random() * bound)`; the JS exception thrown
by calling `.replace` on `undefined` (element access past the end of an
array) is modelled by `Option`, with `none` standing for the thrown
`TypeError`.  `String.prototype.replace` with a global pattern and a string
replacement is embedded faithfully, including the ECMAScript substitution
patterns in the replacement text (a dollar sign followed by another dollar
sign, an ampersand, a backquote or a quote).

Components that the specification describes but whose implementation is
absent from the sources (the phase state machine, the weighted selector
with frequency penalty, and the history tree) are modelled from the spec;
their doc comments say so explicitly.
-/

namespace IIG

/-- Oracle for `Math.random()`: `draw i n` is the value of
`Math.floor(Math.random() * n)` at the i-th draw site, hence `< n`
whenever `0 < n`. -/
structure RandSrc where
  draw : Nat → Nat → Nat
  draw_lt : ∀ i n, 0 < n → draw i n < n

/-- The oracle that always draws 0 (used for concrete evaluations). -/
def r0 : RandSrc := ⟨fun _ _ => 0, fun _ _ h => h⟩

/-- ECMAScript `GetSubstitution` for a replacement string: rewrites the
substitution patterns in the replacement text (`repl`).  `matched` is the
matched substring, `before` the portion of the subject before the match,
`after` the portion after it.  With a capture-group-free pattern the only
special sequences are dollar-dollar, dollar-ampersand, dollar-backquote and
dollar-quote; anything else is copied verbatim. -/
def getSubstitution : List Char → List Char → List Char → List Char → List Char
  | [], _, _, _ => []
  | [c], _, _, _ => [c]
  | c :: c2 :: rest2, m, b, a =>
    if c = '\x24' then
      if c2 = '\x24' then '\x24' :: getSubstitution rest2 m b a
      else if c2 = '\x26' then m ++ getSubstitution rest2 m b a
      else if c2 = '\x60' then b ++ getSubstitution rest2 m b a
      else if c2 = '\x27' then a ++ getSubstitution rest2 m b a
      else '\x24' :: getSubstitution (c2 :: rest2) m b a
    else c :: getSubstitution (c2 :: rest2) m b a

/-- Scanner for `String.prototype.replace(/pat/g, repl)`: walks the subject
left to right, replacing every non-overlapping occurrence of `pat`.  The
`fuel` argument only makes the recursion structural; it is initialised with
the subject length, which a step never outruns.  `pre` accumulates the
original characters already scanned (needed for the dollar-backquote
substitution pattern). -/
def replaceAllAux (pat repl : List Char) : Nat → List Char → List Char → List Char
  | 0, _, s => s
  | fuel+1, pre, s =>
    match s with
    | [] => []
    | c :: rest =>
      if pat.isPrefixOf (c :: rest) then
        getSubstitution repl pat pre (List.drop pat.length (c :: rest)) ++
          replaceAllAux pat repl fuel (pre ++ List.take pat.length (c :: rest))
            (List.drop pat.length (c :: rest))
      else
        c :: replaceAllAux pat repl fuel (pre ++ [c]) rest

/-- JS `s.replace(/pat/g, repl)` for a literal, non-empty pattern. -/
def jsReplace (s pat repl : String) : String :=
  String.mk (replaceAllAux pat.data repl.data s.data.length [] s.data)

/-- JS `s.includes(sub)` on character lists. -/
def containsSub : List Char → List Char → Bool
  | s, sub =>
    if sub.isPrefixOf s then true
    else
      match s with
      | [] => false
      | _ :: rest => containsSub rest sub

/-- JS `s.includes(sub)` on strings. -/
def strIncludes (s sub : String) : Bool :=
  containsSub s.data sub.data

/-- JS `s.toLowerCase()` (character-wise lowering). -/
def strLower (s : String) : String :=
  String.mk (s.data.map Char.toLower)

/-- `MAX_RANDOM_NUMBER` from src/script.js. -/
def MAX_RANDOM_NUMBER : Nat := 20

/-- The `targets` word list of `generateSingleOption`. -/
def targets : List String :=
  ["beginners", "experts", "enterprises", "teenagers", "seniors",
   "small businesses", "developers", "creators", "students", "professionals"]

/-- The `constraints` word list of `generateSingleOption`. -/
def constraints : List String :=
  ["a dependency", "a feature", "the middleman", "manual steps", "a cost center",
   "a bottleneck", "complexity", "a requirement", "friction", "an intermediary"]

/-- The `multipliers` word list of `generateSingleOption`. -/
def multipliers : List String :=
  ["10x", "100x", "2x", "5x", "0.5x"]

/-- The `assumptions` word list of `generateSingleOption`. -/
def assumptions : List String :=
  ["the pricing model", "the delivery method", "the user flow", "the monetization strategy",
   "the target market", "the value proposition", "the distribution channel", "the core feature"]

/-- The replacement used for the last-choice placeholder: the most recent
history entry, or the domain when the history is empty (src/script.js,
`generateSingleOption`). -/
def lastOrDomain (h : List String) (d : String) : String :=
  match h.getLast? with
  | some lc => lc
  | none => d

/-- `generateSingleOption(templates)` from src/script.js: picks a random
template and runs the seven global replacements in source order (domain,
last, target, constraint, multiplier, assumption, number).  On an empty
template list the JS code reads `templates[...] = undefined` and the first
`.replace` call throws a `TypeError`, modelled by `none`.  Draw sites
`k`..`k+5` are consumed. -/
def generateSingleOption (r : RandSrc) (k : Nat) (d : String) (h : List String)
    (templates : List String) : Option String :=
  match templates with
  | [] => none
  | _ :: _ =>
    let template := templates.getD (r.draw k templates.length) ("")
    let o1 := jsReplace template ("{domain}") d
    let o2 := jsReplace o1 ("{last}") (lastOrDomain h d)
    let o3 := jsReplace o2 ("{target}") (targets.getD (r.draw (k+1) targets.length) (""))
    let o4 := jsReplace o3 ("{constraint}") (constraints.getD (r.draw (k+2) constraints.length) (""))
    let o5 := jsReplace o4 ("{multiplier}") (multipliers.getD (r.draw (k+3) multipliers.length) (""))
    let o6 := jsReplace o5 ("{assumption}") (assumptions.getD (r.draw (k+4) assumptions.length) (""))
    let o7 := jsReplace o6 ("{number}") (toString (r.draw (k+5) MAX_RANDOM_NUMBER + 1))
    some o7

/-- Loop body of `generateOptions` from src/script.js: keep drawing single
options into an insertion-ordered set until `count` distinct strings are
collected or the fuel (the attempt budget, initially `count * 10`) runs
out.  `k` is the next free draw site. -/
def generateOptionsAux (r : RandSrc) (d : String) (h : List String)
    (templates : List String) (count : Nat) : Nat → Nat → List String → Option (List String)
  | 0, _, acc => some acc
  | fuel+1, k, acc =>
    if acc.length < count then
      match generateSingleOption r k d h templates with
      | none => none
      | some o =>
        generateOptionsAux r d h templates count fuel (k+6)
          (if o ∈ acc then acc else acc ++ [o])
    else some acc

/-- `generateOptions(count)` from src/script.js, parameterised by the
candidate template list it draws from. -/
def generateOptionsWith (r : RandSrc) (k : Nat) (d : String) (h : List String)
    (count : Nat) (templates : List String) : Option (List String) :=
  generateOptionsAux r d h templates count (count * 10) k []

/-- One category of the operator-mappings configuration:
`{keywords: [...], operators: [...]}`. -/
structure CatData where
  keywords : List String
  operators : List String
deriving DecidableEq

/-- The operator-mappings configuration `{categories: {...}}`; JS object
entries are modelled as an association list in insertion order. -/
structure Mappings where
  categories : List (String × CatData)
deriving DecidableEq

/-- The matching loop of `detectDomainCategories`: collect the name of
every non-default category one of whose lowered keywords is a substring of
the lowered domain. -/
def matchedCats (domainLower : String) : List (String × CatData) → List String
  | [] => []
  | (name, data) :: rest =>
    if name = "default" then matchedCats domainLower rest
    else if data.keywords.any (fun kw => strIncludes domainLower (strLower kw)) then
      name :: matchedCats domainLower rest
    else matchedCats domainLower rest

/-- `detectDomainCategories(domain)` from src/script.js: `none` models the
`operatorMappings` cache still being null. -/
def detectDomainCategories (om : Option Mappings) (domain : String) : List String :=
  match om with
  | none => ["default"]
  | some m =>
    let domainLower := strLower domain
    let matched := matchedCats domainLower m.categories
    if matched = [] then ["default"] else matched

/-- The category-merge loop of `getTemplatesForDomain`: concatenate the
operators of every matched category that exists in the configuration. -/
def categoryTemplates (m : Mappings) : List String → List String
  | [] => []
  | name :: rest =>
    (match List.lookup name m.categories with
     | some data => data.operators
     | none => []) ++ categoryTemplates m rest

/-- The default-mix loop of `getTemplatesForDomain`: draw random elements
of `defs` into an insertion-ordered set until `count` distinct ones are
collected or the fuel (initially `count * 10`) runs out.  `j` is the next
free draw site. -/
def pickDefaultsAux (r : RandSrc) (defs : List String) (count : Nat) :
    Nat → Nat → List String → List String
  | 0, _, acc => acc
  | fuel+1, j, acc =>
    if acc.length < count then
      let t := defs.getD (r.draw j defs.length) ("")
      pickDefaultsAux r defs count fuel (j+1) (if t ∈ acc then acc else acc ++ [t])
    else acc

/-- The four context-aware templates added when the history has more than
two entries (src/script.js, `getTemplatesForDomain`). -/
def contextTemplates : List String :=
  ["Pivot to opposite direction", "Return to initial concept",
   "Merge last 2 ideas", "Challenge the core assumption"]

/-- `getTemplatesForDomain()` from src/script.js: merge the operators of
all matched categories; when the match excludes the default category, mix
in randomly chosen default operators, `Math.floor(len * 0.2)` many (for
every representable array length that float expression floors to `len / 5`);
finally append the four context-aware templates when the history is longer
than two. -/
def getTemplatesForDomain (om : Option Mappings) (domain : String) (history : List String)
    (r : RandSrc) (k : Nat) : List String :=
  match om with
  | none => []
  | some m =>
    let matched := detectDomainCategories (some m) domain
    let domainTemplates := categoryTemplates m matched
    let withDefault :=
      if matched.contains ("default") = false then
        match List.lookup ("default") m.categories with
        | some defData =>
          let defaultTemplates := defData.operators
          let defaultCount := defaultTemplates.length / 5
          domainTemplates ++
            pickDefaultsAux r defaultTemplates defaultCount (defaultCount * 10) k []
        | none => domainTemplates
      else domainTemplates
    if 2 < history.length then withDefault ++ contextTemplates else withDefault

/-- `generateOptions(count)` composed with `getTemplatesForDomain()` as in
src/script.js (`rT` supplies the template-mix draws, `rG` the
option-generation draws). -/
def generateOptions (rT rG : RandSrc) (om : Option Mappings) (d : String)
    (h : List String) (count : Nat) : Option (List String) :=
  generateOptionsWith rG 0 d h count (getTemplatesForDomain om d h rT 0)

/-- The fallback configuration installed by the `catch` branch of
`loadOperatorMappings`: a lone default category with no keywords and no
operators. -/
def fallbackMappings : Mappings :=
  ⟨[(("default" : String), ⟨[], []⟩)]⟩

/-- `round(n * 0.2)` as the spec words it (stated for comparison with the
code's `Math.floor(n * 0.2)`). -/
def specRound02 (n : Nat) : Nat := (2 * n + 5) / 10

/-- A concrete configuration used to refute the claimed default-mix size:
eight default operators and one matching technology category. -/
def mappings9 : Mappings :=
  ⟨[(("default" : String), ⟨[], ["d1", "d2", "d3", "d4", "d5", "d6", "d7", "d8"]⟩),
    (("tech" : String), ⟨["app"], ["T1"]⟩)]⟩

/-- The three ideation phases (spec, Phase State Machine). -/
inductive Phase where
  | exploration
  | refinement
  | validation
deriving DecidableEq

/-- Modelled from the spec: the transition function
`phaseFor(stepCount, manualOverride)` of the Phase State Machine, whose
implementation is absent from src/ (only the project documentation
describes it): return the override when set, else exploration for steps
0-3, refinement for 4-7, validation from 8 on. -/
def phaseFor (stepCount : Nat) (manualOverride : Option Phase) : Phase :=
  match manualOverride with
  | some p => p
  | none =>
    if stepCount ≤ 3 then Phase.exploration
    else if stepCount ≤ 7 then Phase.refinement
    else Phase.validation

/-- Modelled from the spec: one candidate of the Weighted Template
Selector, reduced to the data the frequency penalty reads — its base
weight and its lifetime usage count.  The selector itself is absent from
src/. -/
structure Candidate where
  weight : ℚ
  usage : Nat
deriving DecidableEq

/-- Modelled from the spec: `adjustedWeight = weight * 1/(1 + usageCount * 0.1)`,
the frequency penalty of the Weighted Template Selector (absent from src/). -/
def adjustedWeight (w : ℚ) (usage : Nat) : ℚ :=
  w * (1 / (1 + (usage : ℚ) * (1/10)))

/-- Total adjusted weight of a candidate pool. -/
def totalAdjustedWeight (cs : List Candidate) : ℚ :=
  (cs.map (fun c => adjustedWeight c.weight c.usage)).sum

/-- Modelled from the spec: cumulative-sum sampling over
`uniform(0, totalWeight)` selects a candidate with probability
proportional to its adjusted weight, i.e. `adjustedWeight / total`. -/
def selectionProbability (c : Candidate) (cs : List Candidate) : ℚ :=
  adjustedWeight c.weight c.usage / totalAdjustedWeight cs

/-- Modelled from the spec: a history-tree node
`{id, choiceText, children}`; children own their subtrees.  The non-owning
parent back-references are represented by the session's current path (see
`Session`). -/
inductive HNode where
  | mk (id : String) (choiceText : String) (children : List HNode)

/-- The id of a node. -/
def HNode.id : HNode → String
  | .mk i _ _ => i

/-- The choice text of a node. -/
def HNode.choiceText : HNode → String
  | .mk _ t _ => t

/-- The children of a node. -/
def HNode.children : HNode → List HNode
  | .mk _ _ cs => cs

/-- Modelled from the spec: the session's tree state.  `curPath` is the
list of child indexes leading from the root to the current node; it
represents the chain of non-owning parent references, used only for path
reconstruction.  `nextId` feeds the unique-id generator. -/
structure Session where
  root : Option HNode
  curPath : List Nat
  nextId : Nat

/-- The empty session (no tree yet). -/
def emptySession : Session := ⟨none, [], 0⟩

/-- Unique string id for the n-th accepted node (the spec requires ids to
be unique strings; uniqueness here is by construction, distinct counters
giving strings of distinct lengths). -/
def natId (n : Nat) : String := String.mk (List.replicate (n+1) 'n')

/-- Replace the element at an index of a child list (leaving the list
unchanged when the index is out of range). -/
def modifyIdx (f : HNode → HNode) : Nat → List HNode → List HNode
  | _, [] => []
  | 0, x :: xs => f x :: xs
  | n+1, x :: xs => x :: modifyIdx f n xs

/-- Append `child` to the children of the node reached by the index path. -/
def addChildAt (child : HNode) : List Nat → HNode → HNode
  | [], .mk i t cs => .mk i t (cs ++ [child])
  | idx :: rest, .mk i t cs => .mk i t (modifyIdx (addChildAt child rest) idx cs)

/-- The node reached from `n` by following an index path. -/
def nodeAt : HNode → List Nat → Option HNode
  | n, [] => some n
  | .mk _ _ cs, i :: rest =>
    match cs.get? i with
    | some c => nodeAt c rest
    | none => none

/-- Modelled from the spec: `accept(choiceText)` — create a node under the
current node (or as the new root when the tree is empty), append it to the
parent's children and advance the current pointer to it. -/
def accept (s : Session) (text : String) : Session :=
  match s.root with
  | none =>
    { root := some (HNode.mk (natId s.nextId) text []),
      curPath := [], nextId := s.nextId + 1 }
  | some rt =>
    let newNode := HNode.mk (natId s.nextId) text []
    let idx :=
      match nodeAt rt s.curPath with
      | some cur => cur.children.length
      | none => 0
    { root := some (addChildAt newNode s.curPath rt),
      curPath := s.curPath ++ [idx], nextId := s.nextId + 1 }

/-- The choice texts of the nodes along an index path, root first. -/
def textsAlong : HNode → List Nat → List String
  | .mk _ t _, [] => [t]
  | .mk _ t cs, i :: rest =>
    t :: (match cs.get? i with
          | some c => textsAlong c rest
          | none => [])

/-- Modelled from the spec: `pathFromRoot()` — the ordered choice texts
from the root to the current node (empty when there is no current node). -/
def pathFromRoot (s : Session) : List String :=
  match s.root with
  | none => []
  | some rt => textsAlong rt s.curPath

/-- Modelled from the spec: the plain nested serialization structure
`{id, choiceText, children: [...]}`, free of parent references. -/
inductive SerNode where
  | mk (id : String) (choiceText : String) (children : List SerNode)

mutual

/-- Serialize one node into the plain nested structure. -/
def serializeNode : HNode → SerNode
  | .mk i t cs => SerNode.mk i t (serializeChildren cs)

/-- Serialize a child list. -/
def serializeChildren : List HNode → List SerNode
  | [] => []
  | c :: rest => serializeNode c :: serializeChildren rest

end

mutual

/-- Rebuild a node from the plain nested structure. -/
def deserializeNode : SerNode → HNode
  | .mk i t cs => HNode.mk i t (deserializeChildren cs)

/-- Rebuild a child list. -/
def deserializeChildren : List SerNode → List HNode
  | [] => []
  | c :: rest => deserializeNode c :: deserializeChildren rest

end

mutual

/-- Depth-first search for the index path to the node with the given id
(this is how parent references are rebuilt after deserialization). -/
def findPath : HNode → String → Option (List Nat)
  | .mk i _ cs, cid =>
    if i = cid then some [] else findPathChildren cs cid 0

/-- Depth-first search through a child list, `idx` being the index of the
first child. -/
def findPathChildren : List HNode → String → Nat → Option (List Nat)
  | [], _, _ => none
  | c :: rest, cid, idx =>
    match findPath c cid with
    | some p => some (idx :: p)
    | none => findPathChildren rest cid (idx+1)

end

/-- Modelled from the spec: the serialized session snapshot — the
serialized root plus the current node's id. -/
structure Snapshot where
  rootSer : Option SerNode
  currentId : Option String

/-- Modelled from the spec: `serialize` produces the plain nested
structure plus the current node's id. -/
def serialize (s : Session) : Snapshot :=
  { rootSer := s.root.map serializeNode,
    currentId :=
      match s.root with
      | none => none
      | some rt => (nodeAt rt s.curPath).map HNode.id }

/-- Modelled from the spec: `deserialize` rebuilds the tree from the plain
nested structure and rebuilds the parent references — here, the current
path — by searching for the current node's id; a snapshot whose current id
is absent from the tree is rejected (`none`).  The id counter is not part
of the snapshot contract the round-trip claim speaks about, so it restarts
at 0. -/
def deserialize (sn : Snapshot) : Option Session :=
  match sn.rootSer with
  | none => some { root := none, curPath := [], nextId := 0 }
  | some ser =>
    let rt := deserializeNode ser
    match sn.currentId with
    | none => none
    | some cid =>
      match findPath rt cid with
      | some p => some { root := some rt, curPath := p, nextId := 0 }
      | none => none

/-- A history tree built by a sequence of accept calls starting from the
empty session. -/
def buildSession (ts : List String) : Session :=
  ts.foldl accept emptySession

/-- Proof helper: the chain produced by accepting `t :: us` with ids
starting at counter `k`. -/
def chainNode (k : Nat) (t : String) : List String → HNode
  | [] => HNode.mk (natId k) t []
  | u :: us => HNode.mk (natId k) t [chainNode (k+1) u us]

/-- Proof helper: the session state after accepting `t :: us` starting
from id counter `k`: a chain rooted at `t` with the current node at its
end. -/
def chainSession (k : Nat) (t : String) (us : List String) : Session :=
  { root := some (chainNode k t us),
    curPath := List.replicate us.length 0,
    nextId := k + us.length + 1 }

/-- The category list of an optional configuration (empty when the
configuration has not been loaded). -/
def categoriesOf (om : Option Mappings) : List (String × CatData) :=
  match om with
  | none => []
  | some m => m.categories

/-- A category matches a domain when one of its keywords, lowered, is a
substring of the lowered domain. -/
def categoryMatches (domain : String) (data : CatData) : Prop :=
  ∃ kw ∈ data.keywords, strIncludes (strLower domain) (strLower kw) = true

/-- A string free of placeholder braces and of the dollar sign that JS
`replace` treats specially in replacement text. -/
def cleanStr (s : String) : Prop :=
  '\x7b' ∉ s.data ∧ '\x24' ∉ s.data

/-- The seven placeholder patterns recognised by `generateSingleOption`. -/
def placeholderPatterns : List String :=
  ["{domain}", "{last}", "{target}", "{constraint}", "{multiplier}", "{assumption}", "{number}"]

/-- A template text containing no recognised placeholder pattern. -/
def noPlaceholder (t : String) : Prop :=
  ∀ p ∈ placeholderPatterns, ¬ p.data <:+: t.data

instance (s : String) : Decidable (cleanStr s) := by
  unfold cleanStr
  infer_instance

instance (t : String) : Decidable (noPlaceholder t) := by
  unfold noPlaceholder
  infer_instance

/-! ### Lemmas about the embedded `String.prototype.replace` -/

theorem replaceAllAux_nil (pat v : List Char) (fuel : Nat) (pre : List Char) :
    replaceAllAux pat v fuel pre [] = [] := by
  cases fuel <;> rfl

theorem head_mem_of_occurs {c : Char} {p s : List Char} (h : (c :: p) <:+: s) : c ∈ s := by
  obtain ⟨t, u, rfl⟩ := h
  simp

theorem isPrefixOf_eq_false_of_no_occurrence {pat s : List Char} (h : ¬ pat <:+: s) :
    pat.isPrefixOf s = false := by
  rw [Bool.eq_false_iff]
  intro hb
  exact h (List.isPrefixOf_iff_prefix.mp hb).isInfix

theorem no_occurrence_cons {pat : List Char} {c : Char} {s : List Char}
    (h : ¬ pat <:+: (c :: s)) : ¬ pat <:+: s := by
  intro h2
  exact h (List.infix_cons_iff.mpr (Or.inr h2))

theorem replaceAllAux_no_occurrence (pat v : List Char) :
    ∀ fuel pre s, s.length ≤ fuel → ¬ pat <:+: s →
      replaceAllAux pat v fuel pre s = s := by
  intro fuel
  induction fuel with
  | zero => intro pre s _ _; rfl
  | succ n ih =>
    intro pre s hlen hinf
    match s with
    | [] => rfl
    | c :: rest =>
      simp only [replaceAllAux, isPrefixOf_eq_false_of_no_occurrence hinf, Bool.false_eq_true,
        if_false]
      have hlen' : rest.length ≤ n := by
        simpa using hlen
      rw [ih (pre ++ [c]) rest hlen' (no_occurrence_cons hinf)]

theorem replaceAllAux_fuel_congr (pat v : List Char) (hp : pat ≠ []) :
    ∀ f1 f2 pre s, s.length ≤ f1 → s.length ≤ f2 →
      replaceAllAux pat v f1 pre s = replaceAllAux pat v f2 pre s := by
  have hplen : 1 ≤ pat.length := by
    cases pat with
    | nil => exact absurd rfl hp
    | cons a b => simp
  intro f1
  induction f1 with
  | zero =>
    intro f2 pre s h1 _
    have hs : s = [] := List.eq_nil_of_length_eq_zero (Nat.le_zero.mp h1)
    subst hs
    rw [replaceAllAux_nil, replaceAllAux_nil]
  | succ n ih =>
    intro f2 pre s h1 h2
    match s with
    | [] => rw [replaceAllAux_nil, replaceAllAux_nil]
    | c :: rest =>
      match f2 with
      | 0 => simp at h2
      | m + 1 =>
        simp only [replaceAllAux]
        by_cases hpre : pat.isPrefixOf (c :: rest) = true
        · simp only [hpre, if_true]
          congr 1
          have hd : (List.drop pat.length (c :: rest)).length ≤ rest.length := by
            rw [List.length_drop]
            simp only [List.length_cons]
            omega
          apply ih
          · have : rest.length ≤ n := by simpa using h1
            omega
          · have : rest.length ≤ m := by simpa using h2
            omega
        · simp only [hpre, Bool.false_eq_true, if_false]
          congr 1
          apply ih
          · simpa using h1
          · simpa using h2

theorem getSubstitution_no_dollar (v m b a : List Char) (hv : '\x24' ∉ v) :
    getSubstitution v m b a = v := by
  induction v with
  | nil => rfl
  | cons c rest ih =>
    have hc : c ≠ '\x24' := by
      intro h
      exact hv (h ▸ List.mem_cons_self c rest)
    cases rest with
    | nil => simp [getSubstitution]
    | cons c2 rest2 =>
      have hv' : '\x24' ∉ c2 :: rest2 := fun h => hv (List.mem_cons_of_mem c h)
      simp only [getSubstitution, if_neg hc]
      rw [ih hv']

theorem replaceAllAux_splice (p' v y : List Char) :
    ∀ x fuel pre, (∀ c ∈ x, c ≠ '\x7b') → (x ++ ('\x7b' :: p') ++ y).length ≤ fuel →
      replaceAllAux ('\x7b' :: p') v fuel pre (x ++ ('\x7b' :: p') ++ y)
        = x ++ getSubstitution v ('\x7b' :: p') (pre ++ x) y
            ++ replaceAllAux ('\x7b' :: p') v y.length (pre ++ x ++ ('\x7b' :: p')) y := by
  intro x
  induction x with
  | nil =>
    intro fuel pre _ hlen
    match fuel with
    | 0 => simp at hlen
    | n + 1 =>
      simp only [List.nil_append] at hlen ⊢
      have hrw : ('\x7b' :: p') ++ y = '\x7b' :: (p' ++ y) := by simp
      rw [hrw]
      simp only [replaceAllAux]
      have hpre : ('\x7b' :: p').isPrefixOf ('\x7b' :: (p' ++ y)) = true := by
        apply List.isPrefixOf_iff_prefix.mpr
        rw [← hrw]
        exact List.prefix_append _ _
      simp only [hpre, if_true]
      rw [← hrw, List.drop_left, List.take_left]
      simp only [List.append_nil]
      congr 1
      apply replaceAllAux_fuel_congr _ _ (by simp)
      · simp only [List.length_cons, List.length_append] at hlen
        omega
      · exact le_refl _
  | cons c x' ih =>
    intro fuel pre hx hlen
    have hc : c ≠ '\x7b' := hx c (List.mem_cons_self c x')
    match fuel with
    | 0 => simp at hlen
    | n + 1 =>
      simp only [List.cons_append] at hlen ⊢
      simp only [replaceAllAux]
      have hpre : ('\x7b' :: p').isPrefixOf (c :: (x' ++ ('\x7b' :: p') ++ y)) = false := by
        simp only [List.isPrefixOf, Bool.and_eq_false_iff]
        left
        simp [Ne.symm hc]
      simp only [hpre, Bool.false_eq_true, if_false]
      have hlen' : (x' ++ ('\x7b' :: p') ++ y).length ≤ n := by
        simp only [List.length_cons, List.length_append] at hlen ⊢
        omega
      rw [ih n (pre ++ [c]) (fun d hd => hx d (List.mem_cons_of_mem c hd)) (by
        simpa using hlen')]
      simp [List.append_assoc]

theorem jsReplace_no_occurrence {s pat v : String} (h : ¬ pat.data <:+: s.data) :
    jsReplace s pat v = s := by
  unfold jsReplace
  rw [replaceAllAux_no_occurrence _ _ _ _ _ (le_refl _) h]

theorem jsReplace_brace_head (pat : String) {s v : String}
    (hpat : pat.data.head? = some '\x7b') (hs : '\x7b' ∉ s.data) :
    jsReplace s pat v = s := by
  apply jsReplace_no_occurrence
  intro hinf
  match hd : pat.data with
  | [] => rw [hd] at hpat; simp at hpat
  | c :: rest =>
    rw [hd] at hpat hinf
    simp only [List.head?] at hpat
    have : c = '\x7b' := by simpa using hpat
    subst this
    exact hs (head_mem_of_occurs hinf)

theorem jsReplace_self (pat : String) {v : String} (hp : pat.data ≠ [])
    (hv : '\x24' ∉ v.data) :
    jsReplace pat pat v = v := by
  unfold jsReplace
  obtain ⟨c, rest, hcr⟩ := List.exists_cons_of_ne_nil hp
  rw [hcr]
  simp only [List.length_cons]
  simp only [replaceAllAux]
  have hpre : (c :: rest).isPrefixOf (c :: rest) = true :=
    List.isPrefixOf_iff_prefix.mpr (List.prefix_refl _)
  simp only [hpre, if_true]
  rw [show List.drop (c :: rest).length (c :: rest) = [] from List.drop_length _]
  rw [replaceAllAux_nil, List.append_nil]
  rw [getSubstitution_no_dollar _ _ _ _ hv]

/-! ### C7 — the phase transition function -/

/-- C7: `phaseFor` returns the manual override unconditionally when one is
set; otherwise it returns exploration for step counts 0-3, refinement for
4-7 and validation from 8 on. -/
theorem phaseFor_correct (n : Nat) (p : Phase) :
    phaseFor n (some p) = p
    ∧ (n ≤ 3 → phaseFor n none = Phase.exploration)
    ∧ (4 ≤ n → n ≤ 7 → phaseFor n none = Phase.refinement)
    ∧ (8 ≤ n → phaseFor n none = Phase.validation) := by
  refine ⟨rfl, ?_, ?_, ?_⟩
  · intro h
    simp [phaseFor, h]
  · intro h4 h7
    have h3 : ¬ n ≤ 3 := by omega
    simp [phaseFor, h3, h7]
  · intro h8
    have h3 : ¬ n ≤ 3 := by omega
    have h7 : ¬ n ≤ 7 := by omega
    simp [phaseFor, h3, h7]

/-- Witness for C7 at the boundary step counts named by the spec. -/
theorem phaseFor_correct_witness :
    phaseFor 5 (some Phase.validation) = Phase.validation
    ∧ phaseFor 0 none = Phase.exploration
    ∧ phaseFor 3 none = Phase.exploration
    ∧ phaseFor 4 none = Phase.refinement
    ∧ phaseFor 7 none = Phase.refinement
    ∧ phaseFor 8 none = Phase.validation
    ∧ phaseFor 100 none = Phase.validation :=
  ⟨(phaseFor_correct 5 Phase.validation).1,
   (phaseFor_correct 0 Phase.validation).2.1 (by decide),
   (phaseFor_correct 3 Phase.validation).2.1 (by decide),
   (phaseFor_correct 4 Phase.validation).2.2.1 (by decide) (by decide),
   (phaseFor_correct 7 Phase.validation).2.2.1 (by decide) (by decide),
   (phaseFor_correct 8 Phase.validation).2.2.2 (by decide),
   (phaseFor_correct 100 Phase.validation).2.2.2 (by decide)⟩

/-! ### C6 — the frequency penalty of the weighted selector -/

/-- C6: with cumulative-sum sampling proportional to
`adjustedWeight = weight * 1/(1 + usage * 0.1)`, a candidate with the same
base weight but a strictly larger usage count has a strictly smaller
selection probability, and no positive-weight candidate's probability is
driven to zero. -/
theorem usagePenalty_strictly_decreases_probability (cs : List Candidate)
    (c1 c2 : Candidate) (h1 : c1 ∈ cs) (h2 : c2 ∈ cs) (hw : c2.weight = c1.weight)
    (hpos : ∀ c ∈ cs, 0 < c.weight) (hu : c1.usage < c2.usage) :
    selectionProbability c2 cs < selectionProbability c1 cs
    ∧ 0 < selectionProbability c2 cs := by
  have hw1 : 0 < c1.weight := hpos c1 h1
  have hden : ∀ u : Nat, (0:ℚ) < 1 + (u:ℚ) * (1/10) := by
    intro u
    positivity
  have hadj_pos : ∀ (w : ℚ) (u : Nat), 0 < w → 0 < adjustedWeight w u := by
    intro w u hwp
    unfold adjustedWeight
    positivity
  have hmono : adjustedWeight c2.weight c2.usage < adjustedWeight c1.weight c1.usage := by
    rw [hw]
    unfold adjustedWeight
    apply mul_lt_mul_of_pos_left _ hw1
    apply one_div_lt_one_div_of_lt (hden c1.usage)
    have hcast : (c1.usage : ℚ) < (c2.usage : ℚ) := by exact_mod_cast hu
    have := mul_lt_mul_of_pos_right hcast (show (0:ℚ) < 1/10 by norm_num)
    linarith
  have htot : 0 < totalAdjustedWeight cs := by
    unfold totalAdjustedWeight
    apply List.sum_pos
    · intro a ha
      obtain ⟨c, hc, rfl⟩ := List.mem_map.mp ha
      exact hadj_pos _ _ (hpos c hc)
    · simpa using List.ne_nil_of_mem h1
  constructor
  · unfold selectionProbability
    exact div_lt_div_of_pos_right hmono htot
  · unfold selectionProbability
    exact div_pos (hadj_pos _ _ (hpos c2 h2)) htot

/-- Witness for C6: two unit-weight candidates, usage counts 0 and 1. -/
theorem usagePenalty_strictly_decreases_probability_witness :
    selectionProbability ⟨1, 1⟩ [⟨1, 0⟩, ⟨1, 1⟩] < selectionProbability ⟨1, 0⟩ [⟨1, 0⟩, ⟨1, 1⟩]
    ∧ 0 < selectionProbability ⟨1, 1⟩ [⟨1, 0⟩, ⟨1, 1⟩] :=
  usagePenalty_strictly_decreases_probability [⟨1, 0⟩, ⟨1, 1⟩] ⟨1, 0⟩ ⟨1, 1⟩
    (by simp) (by simp) rfl (by simp) (by decide)

/-! ### C10 — the context-aware templates -/

/-- C10: with a loaded configuration, the template list for a history
longer than two entries is exactly the history-independent list with the
four context-aware templates appended; with two or fewer entries nothing
is appended. -/
theorem contextTemplates_exactly_when_history_gt_two (m : Mappings) (d : String)
    (r : RandSrc) (k : Nat) (h : List String) :
    getTemplatesForDomain (some m) d h r k
      = getTemplatesForDomain (some m) d [] r k
        ++ (if 2 < h.length then contextTemplates else []) := by
  by_cases h2 : 2 < h.length <;> simp [getTemplatesForDomain, h2]

/-! ### C2 — the batch generator -/

theorem generateSingleOption_isSome (r : RandSrc) (k : Nat) (d : String)
    (h templates : List String) (hne : templates ≠ []) :
    ∃ o, generateSingleOption r k d h templates = some o := by
  obtain ⟨t, ts, rfl⟩ := List.exists_cons_of_ne_nil hne
  exact ⟨_, rfl⟩

theorem generateOptionsAux_inv (r : RandSrc) (d : String) (h templates : List String)
    (count : Nat) (hne : templates ≠ []) :
    ∀ fuel k acc, acc.Nodup → acc.length ≤ count →
      ∃ l, generateOptionsAux r d h templates count fuel k acc = some l
        ∧ l.length ≤ count ∧ l.Nodup := by
  intro fuel
  induction fuel with
  | zero =>
    intro k acc h1 h2
    exact ⟨acc, rfl, h2, h1⟩
  | succ n ih =>
    intro k acc h1 h2
    by_cases hlt : acc.length < count
    · obtain ⟨o, ho⟩ := generateSingleOption_isSome r k d h templates hne
      simp only [generateOptionsAux, if_pos hlt, ho]
      apply ih
      · by_cases hmem : o ∈ acc
        · simpa [hmem] using h1
        · simp only [if_neg hmem]
          simp [List.nodup_append, h1, hmem]
      · by_cases hmem : o ∈ acc
        · simpa [hmem] using h2
        · simp only [if_neg hmem, List.length_append, List.length_singleton]
          omega
    · simp only [generateOptionsAux, if_neg hlt]
      exact ⟨acc, rfl, h2, h1⟩

/-- C2 (amended): for every requested count and every NON-EMPTY candidate
template list, the batch generator succeeds, returning at most `count`
pairwise-distinct rendered texts (within the `count * 10` attempt budget
built into its fuel). -/
theorem generateOptions_unique_bounded (r : RandSrc) (k : Nat) (d : String)
    (h : List String) (count : Nat) (templates : List String) (hne : templates ≠ []) :
    ∃ l, generateOptionsWith r k d h count templates = some l
      ∧ l.length ≤ count ∧ l.Nodup := by
  apply generateOptionsAux_inv r d h templates count hne (count * 10) k []
  · exact List.nodup_nil
  · simp

/-- C2 counterexample: on the empty candidate template list with requested
count 1 the batch generator does NOT return fewer options — it errors (the
JS code reads `templates[0] = undefined` and `.replace` throws), refuting
the claim for "every candidate template list". -/
theorem generateOptions_empty_list_errors :
    generateOptionsWith r0 0 ("app") [] 1 [] = none := by decide

/-- Witness for C2 on a concrete singleton template list. -/
theorem generateOptions_unique_bounded_witness :
    ∃ l, generateOptionsWith r0 0 ("app") [] 4 [("Add dark mode")] = some l
      ∧ l.length ≤ 4 ∧ l.Nodup :=
  generateOptions_unique_bounded r0 0 ("app") [] 4 [("Add dark mode")] (by decide)

/-! ### C3 — error handling after a configuration-load failure -/

/-- C3: the fallback configuration installed after a load failure has an
EMPTY default operator list, so the very next generation call (requested
count 1) hits the empty candidate list and errors (none = thrown
TypeError) instead of returning fewer options. -/
theorem fallback_generation_fails :
    getTemplatesForDomain (some fallbackMappings) ("restaurant app") [] r0 0 = []
    ∧ generateOptions r0 r0 (some fallbackMappings) ("restaurant app") [] 1 = none := by
  constructor <;> decide

/-! ### C1 — the domain category matcher -/

theorem matchedCats_mem (dl : String) (cats : List (String × CatData)) (name : String) :
    name ∈ matchedCats dl cats ↔
      ∃ data : CatData, (name, data) ∈ cats ∧ name ≠ "default"
        ∧ (data.keywords.any fun kw => strIncludes dl (strLower kw)) = true := by
  induction cats with
  | nil => simp [matchedCats]
  | cons entry rest ih =>
    obtain ⟨nm, dt⟩ := entry
    by_cases hdef : nm = "default"
    · subst hdef
      rw [show matchedCats dl (("default", dt) :: rest) = matchedCats dl rest from by
        simp [matchedCats]]
      rw [ih]
      constructor
      · rintro ⟨data, hmem, hne, hany⟩
        exact ⟨data, List.mem_cons_of_mem _ hmem, hne, hany⟩
      · rintro ⟨data, hmem, hne, hany⟩
        rcases List.mem_cons.mp hmem with heq | hmem'
        · injection heq with e1 _
          exact absurd e1 hne
        · exact ⟨data, hmem', hne, hany⟩
    · by_cases hany : (dt.keywords.any fun kw => strIncludes dl (strLower kw)) = true
      · rw [show matchedCats dl ((nm, dt) :: rest) = nm :: matchedCats dl rest from by
          simp [matchedCats, hdef, hany]]
        rw [List.mem_cons, ih]
        constructor
        · rintro (rfl | ⟨data, hmem, hne, hany2⟩)
          · exact ⟨dt, List.mem_cons_self _ _, hdef, hany⟩
          · exact ⟨data, List.mem_cons_of_mem _ hmem, hne, hany2⟩
        · rintro ⟨data, hmem, hne, hany2⟩
          rcases List.mem_cons.mp hmem with heq | hmem'
          · injection heq with e1 _
            exact Or.inl e1
          · exact Or.inr ⟨data, hmem', hne, hany2⟩
      · rw [show matchedCats dl ((nm, dt) :: rest) = matchedCats dl rest from by
          simp [matchedCats, hdef, hany]]
        rw [ih]
        constructor
        · rintro ⟨data, hmem, hne, hany2⟩
          exact ⟨data, List.mem_cons_of_mem _ hmem, hne, hany2⟩
        · rintro ⟨data, hmem, hne, hany2⟩
          rcases List.mem_cons.mp hmem with heq | hmem'
          · injection heq with _ e2
            rw [e2] at hany2
            exact absurd hany2 hany
          · exact ⟨data, hmem', hne, hany2⟩

/-- C1: the matcher always returns a non-empty list, and a name is
returned exactly when it is a non-default configured category one of whose
lowered keywords occurs in the lowered domain, or when no such category
matches at all and the name is the default one. -/
theorem detectDomainCategories_correct (om : Option Mappings) (domain : String) :
    detectDomainCategories om domain ≠ []
    ∧ ∀ name : String,
        name ∈ detectDomainCategories om domain ↔
          ((∃ data : CatData, (name, data) ∈ categoriesOf om ∧ name ≠ "default"
              ∧ categoryMatches domain data)
           ∨ (name = "default"
              ∧ ∀ nm data, (nm, data) ∈ categoriesOf om → nm ≠ "default"
                  → ¬ categoryMatches domain data)) := by
  have hbridge : ∀ data : CatData,
      ((data.keywords.any fun kw => strIncludes (strLower domain) (strLower kw)) = true)
        ↔ categoryMatches domain data := by
    intro data
    rw [List.any_eq_true]
    exact Iff.rfl
  cases om with
  | none =>
    constructor
    · simp [detectDomainCategories]
    · intro name
      simp only [detectDomainCategories, categoriesOf, List.mem_singleton,
        List.not_mem_nil]
      constructor
      · intro h
        right
        refine ⟨h, ?_⟩
        intro nm data hmem
        simp at hmem
      · rintro (⟨data, hmem, _, _⟩ | ⟨h, _⟩)
        · simp at hmem
        · exact h
  | some m =>
    simp only [categoriesOf]
    by_cases hm : matchedCats (strLower domain) m.categories = []
    · have hdet : detectDomainCategories (some m) domain = ["default"] := by
        simp [detectDomainCategories, hm]
      rw [hdet]
      refine ⟨by simp, ?_⟩
      intro name
      simp only [List.mem_singleton]
      have hnomatch : ∀ nm data, (nm, data) ∈ m.categories → nm ≠ "default"
          → ¬ categoryMatches domain data := by
        intro nm data hmem hne hmat
        have hx : nm ∈ matchedCats (strLower domain) m.categories :=
          (matchedCats_mem _ _ _).mpr ⟨data, hmem, hne, (hbridge data).mpr hmat⟩
        rw [hm] at hx
        simp at hx
      constructor
      · intro h
        exact Or.inr ⟨h, hnomatch⟩
      · rintro (⟨data, hmem, hne, hmat⟩ | ⟨h, _⟩)
        · exact absurd hmat (hnomatch name data hmem hne)
        · exact h
    · have hdet : detectDomainCategories (some m) domain
          = matchedCats (strLower domain) m.categories := by
        simp [detectDomainCategories, hm]
      rw [hdet]
      refine ⟨hm, ?_⟩
      intro name
      rw [matchedCats_mem]
      constructor
      · rintro ⟨data, hmem, hne, hany⟩
        exact Or.inl ⟨data, hmem, hne, (hbridge data).mp hany⟩
      · rintro (⟨data, hmem, hne, hmat⟩ | ⟨rfl, hno⟩)
        · exact ⟨data, hmem, hne, (hbridge data).mpr hmat⟩
        · exfalso
          obtain ⟨x, hx⟩ := List.exists_mem_of_ne_nil _ hm
          obtain ⟨data, hmem, hne, hany⟩ := (matchedCats_mem _ _ x).mp hx
          exact hno x data hmem hne ((hbridge data).mp hany)

/-! ### C4 and C5 — the placeholder expander -/

theorem string_data_inj {s t : String} (h : s.data = t.data) : s = t := by
  cases s
  cases t
  simp only at h
  rw [h]

theorem getD_mem_of_lt {α : Type} (l : List α) (i : Nat) (dflt : α)
    (hi : i < l.length) : l.getD i dflt ∈ l := by
  rw [List.getD_eq_getElem l dflt hi]
  exact List.getElem_mem hi

theorem targets_clean : ∀ w ∈ targets, cleanStr w := by decide

theorem constraints_clean : ∀ w ∈ constraints, cleanStr w := by decide

theorem multipliers_clean : ∀ w ∈ multipliers, cleanStr w := by decide

theorem assumptions_clean : ∀ w ∈ assumptions, cleanStr w := by decide

theorem numeral_clean : ∀ m : Nat, m < 20 → cleanStr (toString (m+1)) := by decide

theorem gso_singleton (r : RandSrc) (k : Nat) (d : String) (h : List String) (t : String) :
    generateSingleOption r k d h [t]
      = some (jsReplace (jsReplace (jsReplace (jsReplace (jsReplace (jsReplace (jsReplace
          t ("{domain}") d)
          ("{last}") (lastOrDomain h d))
          ("{target}") (targets.getD (r.draw (k+1) targets.length) ("")))
          ("{constraint}") (constraints.getD (r.draw (k+2) constraints.length) ("")))
          ("{multiplier}") (multipliers.getD (r.draw (k+3) multipliers.length) ("")))
          ("{assumption}") (assumptions.getD (r.draw (k+4) assumptions.length) ("")))
          ("{number}") (toString (r.draw (k+5) MAX_RANDOM_NUMBER + 1))) := by
  have h0 : r.draw k 1 = 0 := Nat.lt_one_iff.mp (r.draw_lt k 1 Nat.one_pos)
  simp [generateSingleOption, h0]

theorem jsReplace_double_last (L : String) (hL : cleanStr L) :
    jsReplace ("go {last} and {last}") ("{last}") L
      = ("go " : String) ++ L ++ (" and " : String) ++ L := by
  apply string_data_inj
  show replaceAllAux ("{last}" : String).data L.data
      ("go {last} and {last}" : String).data.length [] ("go {last} and {last}" : String).data
      = _
  have hpat : ("{last}" : String).data = '\x7b' :: ("last\x7d" : String).data := by decide
  have hsub : ("go {last} and {last}" : String).data
      = ("go " : String).data ++ ('\x7b' :: ("last\x7d" : String).data)
        ++ ((" and " : String).data ++ ('\x7b' :: ("last\x7d" : String).data) ++ []) := by decide
  rw [hpat, hsub]
  rw [replaceAllAux_splice _ _ _ _ _ _ (by decide) (le_refl _)]
  rw [replaceAllAux_splice _ _ _ _ _ _ (by decide) (le_refl _)]
  rw [getSubstitution_no_dollar _ _ _ _ hL.2, getSubstitution_no_dollar _ _ _ _ hL.2]
  rw [replaceAllAux_nil]
  simp [String.data_append, List.append_assoc]

/-- C4 (amended): provided the substituted contextual values (the domain
and the most recent choice text) contain no brace and no dollar sign —
JS `replace` rewrites dollar patterns inside the replacement text and
later passes rescan substituted text — the expander replaces every
occurrence of the last-choice placeholder with the most recent history
entry (or the domain when the history is empty), replaces the target,
constraint, multiplier and assumption placeholders with picks from their
fixed word lists of sizes 10, 10, 5 and 8, replaces the number
placeholder with an integer in [1,20], and returns templates free of
recognised placeholders verbatim, without error. -/
theorem placeholderExpansion_correct (r : RandSrc) (k : Nat) (d : String) (h : List String)
    (hl : cleanStr (lastOrDomain h d)) :
    generateSingleOption r k d h [("{last}")] = some (lastOrDomain h d)
    ∧ generateSingleOption r k d h [("go {last} and {last}")]
        = some (("go " : String) ++ lastOrDomain h d ++ (" and " : String) ++ lastOrDomain h d)
    ∧ (∃ w ∈ targets, generateSingleOption r k d h [("{target}")] = some w)
    ∧ targets.length = 10
    ∧ (∃ w ∈ constraints, generateSingleOption r k d h [("{constraint}")] = some w)
    ∧ constraints.length = 10
    ∧ (∃ w ∈ multipliers, generateSingleOption r k d h [("{multiplier}")] = some w)
    ∧ multipliers.length = 5
    ∧ (∃ w ∈ assumptions, generateSingleOption r k d h [("{assumption}")] = some w)
    ∧ assumptions.length = 8
    ∧ (∃ n : Nat, 1 ≤ n ∧ n ≤ 20
        ∧ generateSingleOption r k d h [("{number}")] = some (toString n))
    ∧ (∀ t : String, noPlaceholder t → generateSingleOption r k d h [t] = some t) := by
  have hT : r.draw (k+1) targets.length < targets.length := r.draw_lt _ _ (by decide)
  have hC : r.draw (k+2) constraints.length < constraints.length := r.draw_lt _ _ (by decide)
  have hM : r.draw (k+3) multipliers.length < multipliers.length := r.draw_lt _ _ (by decide)
  have hA : r.draw (k+4) assumptions.length < assumptions.length := r.draw_lt _ _ (by decide)
  have hN : r.draw (k+5) MAX_RANDOM_NUMBER < 20 := r.draw_lt _ _ (by decide)
  refine ⟨?_, ?_, ?_, by decide, ?_, by decide, ?_, by decide, ?_, by decide, ?_, ?_⟩
  · -- single {last}
    rw [gso_singleton]
    refine congrArg some ?_
    rw [jsReplace_no_occurrence
      (by decide : ¬ ("{domain}" : String).data <:+: ("{last}" : String).data)]
    rw [jsReplace_self ("{last}") (by decide) hl.2]
    rw [jsReplace_brace_head ("{target}") (by decide) hl.1,
      jsReplace_brace_head ("{constraint}") (by decide) hl.1,
      jsReplace_brace_head ("{multiplier}") (by decide) hl.1,
      jsReplace_brace_head ("{assumption}") (by decide) hl.1,
      jsReplace_brace_head ("{number}") (by decide) hl.1]
  · -- double {last}
    rw [gso_singleton]
    refine congrArg some ?_
    rw [jsReplace_no_occurrence
      (by decide : ¬ ("{domain}" : String).data <:+: ("go {last} and {last}" : String).data)]
    rw [jsReplace_double_last _ hl]
    have hR : '\x7b' ∉ (("go " : String) ++ lastOrDomain h d
        ++ (" and " : String) ++ lastOrDomain h d).data := by
      simp only [String.data_append, List.mem_append, not_or]
      exact ⟨⟨⟨by decide, hl.1⟩, by decide⟩, hl.1⟩
    rw [jsReplace_brace_head ("{target}") (by decide) hR,
      jsReplace_brace_head ("{constraint}") (by decide) hR,
      jsReplace_brace_head ("{multiplier}") (by decide) hR,
      jsReplace_brace_head ("{assumption}") (by decide) hR,
      jsReplace_brace_head ("{number}") (by decide) hR]
  · -- {target}
    have hmem : targets.getD (r.draw (k+1) targets.length) ("") ∈ targets :=
      getD_mem_of_lt _ _ _ hT
    have hclean := targets_clean _ hmem
    refine ⟨_, hmem, ?_⟩
    rw [gso_singleton]
    refine congrArg some ?_
    rw [jsReplace_no_occurrence
      (by decide : ¬ ("{domain}" : String).data <:+: ("{target}" : String).data)]
    rw [jsReplace_no_occurrence
      (by decide : ¬ ("{last}" : String).data <:+: ("{target}" : String).data)]
    rw [jsReplace_self ("{target}") (by decide) hclean.2]
    rw [jsReplace_brace_head ("{constraint}") (by decide) hclean.1,
      jsReplace_brace_head ("{multiplier}") (by decide) hclean.1,
      jsReplace_brace_head ("{assumption}") (by decide) hclean.1,
      jsReplace_brace_head ("{number}") (by decide) hclean.1]
  · -- {constraint}
    have hmem : constraints.getD (r.draw (k+2) constraints.length) ("") ∈ constraints :=
      getD_mem_of_lt _ _ _ hC
    have hclean := constraints_clean _ hmem
    refine ⟨_, hmem, ?_⟩
    rw [gso_singleton]
    refine congrArg some ?_
    rw [jsReplace_no_occurrence
      (by decide : ¬ ("{domain}" : String).data <:+: ("{constraint}" : String).data)]
    rw [jsReplace_no_occurrence
      (by decide : ¬ ("{last}" : String).data <:+: ("{constraint}" : String).data)]
    rw [jsReplace_no_occurrence
      (by decide : ¬ ("{target}" : String).data <:+: ("{constraint}" : String).data)]
    rw [jsReplace_self ("{constraint}") (by decide) hclean.2]
    rw [jsReplace_brace_head ("{multiplier}") (by decide) hclean.1,
      jsReplace_brace_head ("{assumption}") (by decide) hclean.1,
      jsReplace_brace_head ("{number}") (by decide) hclean.1]
  · -- {multiplier}
    have hmem : multipliers.getD (r.draw (k+3) multipliers.length) ("") ∈ multipliers :=
      getD_mem_of_lt _ _ _ hM
    have hclean := multipliers_clean _ hmem
    refine ⟨_, hmem, ?_⟩
    rw [gso_singleton]
    refine congrArg some ?_
    rw [jsReplace_no_occurrence
      (by decide : ¬ ("{domain}" : String).data <:+: ("{multiplier}" : String).data)]
    rw [jsReplace_no_occurrence
      (by decide : ¬ ("{last}" : String).data <:+: ("{multiplier}" : String).data)]
    rw [jsReplace_no_occurrence
      (by decide : ¬ ("{target}" : String).data <:+: ("{multiplier}" : String).data)]
    rw [jsReplace_no_occurrence
      (by decide : ¬ ("{constraint}" : String).data <:+: ("{multiplier}" : String).data)]
    rw [jsReplace_self ("{multiplier}") (by decide) hclean.2]
    rw [jsReplace_brace_head ("{assumption}") (by decide) hclean.1,
      jsReplace_brace_head ("{number}") (by decide) hclean.1]
  · -- {assumption}
    have hmem : assumptions.getD (r.draw (k+4) assumptions.length) ("") ∈ assumptions :=
      getD_mem_of_lt _ _ _ hA
    have hclean := assumptions_clean _ hmem
    refine ⟨_, hmem, ?_⟩
    rw [gso_singleton]
    refine congrArg some ?_
    rw [jsReplace_no_occurrence
      (by decide : ¬ ("{domain}" : String).data <:+: ("{assumption}" : String).data)]
    rw [jsReplace_no_occurrence
      (by decide : ¬ ("{last}" : String).data <:+: ("{assumption}" : String).data)]
    rw [jsReplace_no_occurrence
      (by decide : ¬ ("{target}" : String).data <:+: ("{assumption}" : String).data)]
    rw [jsReplace_no_occurrence
      (by decide : ¬ ("{constraint}" : String).data <:+: ("{assumption}" : String).data)]
    rw [jsReplace_no_occurrence
      (by decide : ¬ ("{multiplier}" : String).data <:+: ("{assumption}" : String).data)]
    rw [jsReplace_self ("{assumption}") (by decide) hclean.2]
    rw [jsReplace_brace_head ("{number}") (by decide) hclean.1]
  · -- {number}
    refine ⟨r.draw (k+5) MAX_RANDOM_NUMBER + 1, by omega, by omega, ?_⟩
    rw [gso_singleton]
    refine congrArg some ?_
    rw [jsReplace_no_occurrence
      (by decide : ¬ ("{domain}" : String).data <:+: ("{number}" : String).data)]
    rw [jsReplace_no_occurrence
      (by decide : ¬ ("{last}" : String).data <:+: ("{number}" : String).data)]
    rw [jsReplace_no_occurrence
      (by decide : ¬ ("{target}" : String).data <:+: ("{number}" : String).data)]
    rw [jsReplace_no_occurrence
      (by decide : ¬ ("{constraint}" : String).data <:+: ("{number}" : String).data)]
    rw [jsReplace_no_occurrence
      (by decide : ¬ ("{multiplier}" : String).data <:+: ("{number}" : String).data)]
    rw [jsReplace_no_occurrence
      (by decide : ¬ ("{assumption}" : String).data <:+: ("{number}" : String).data)]
    rw [jsReplace_self ("{number}") (by decide) (numeral_clean _ hN).2]
  · -- unrecognised templates pass through verbatim
    intro t ht
    rw [gso_singleton]
    refine congrArg some ?_
    rw [jsReplace_no_occurrence (ht ("{domain}") (by simp [placeholderPatterns]))]
    rw [jsReplace_no_occurrence (ht ("{last}") (by simp [placeholderPatterns]))]
    rw [jsReplace_no_occurrence (ht ("{target}") (by simp [placeholderPatterns]))]
    rw [jsReplace_no_occurrence (ht ("{constraint}") (by simp [placeholderPatterns]))]
    rw [jsReplace_no_occurrence (ht ("{multiplier}") (by simp [placeholderPatterns]))]
    rw [jsReplace_no_occurrence (ht ("{assumption}") (by simp [placeholderPatterns]))]
    rw [jsReplace_no_occurrence (ht ("{number}") (by simp [placeholderPatterns]))]

/-- C4 counterexample: when the most recent choice text is the two
characters dollar-ampersand, JS `replace` substitutes the matched token
for it, so the last-choice placeholder is NOT replaced by the choice text:
the rendered option is the token itself, not the choice text. -/
theorem placeholderExpansion_dollar_flaw :
    generateSingleOption r0 0 ("d") [("$&" : String)] [("{last}")] = some ("{last}")
    ∧ ("{last}" : String) ≠ ("$&" : String) := by
  constructor <;> decide

/-- Witness for C4: domain "app", empty history. -/
theorem placeholderExpansion_correct_witness :
    generateSingleOption r0 0 ("app") [] [("{last}")] = some (lastOrDomain [] ("app")) :=
  (placeholderExpansion_correct r0 0 ("app") [] (by decide)).1

/-- C5 (amended): substitution is order-DEPENDENT — the seven global
replacements run in the fixed source order (domain, last, target,
constraint, multiplier, assumption, number) and a value substituted by an
earlier pass is rescanned by every later pass, so a substituted value that
contains a later placeholder token is itself replaced: expanding the lone
domain placeholder with domain text equal to the number token always
renders a numeral in [1,20], never the number token itself. -/
theorem substitution_order_dependent (r : RandSrc) (k : Nat) :
    generateSingleOption r k ("{number}") [] [("{domain}")]
      = some (toString (r.draw (k+5) MAX_RANDOM_NUMBER + 1))
    ∧ generateSingleOption r k ("{number}") [] [("{domain}")] ≠ some ("{number}") := by
  have hN : r.draw (k+5) MAX_RANDOM_NUMBER < 20 := r.draw_lt _ _ (by decide)
  have heq : generateSingleOption r k ("{number}") [] [("{domain}")]
      = some (toString (r.draw (k+5) MAX_RANDOM_NUMBER + 1)) := by
    rw [gso_singleton]
    refine congrArg some ?_
    rw [jsReplace_self ("{domain}") (by decide) (by decide :
      '\x24' ∉ ("{number}" : String).data)]
    rw [show lastOrDomain [] ("{number}") = ("{number}" : String) from rfl]
    rw [jsReplace_no_occurrence
      (by decide : ¬ ("{last}" : String).data <:+: ("{number}" : String).data)]
    rw [jsReplace_no_occurrence
      (by decide : ¬ ("{target}" : String).data <:+: ("{number}" : String).data)]
    rw [jsReplace_no_occurrence
      (by decide : ¬ ("{constraint}" : String).data <:+: ("{number}" : String).data)]
    rw [jsReplace_no_occurrence
      (by decide : ¬ ("{multiplier}" : String).data <:+: ("{number}" : String).data)]
    rw [jsReplace_no_occurrence
      (by decide : ¬ ("{assumption}" : String).data <:+: ("{number}" : String).data)]
    rw [jsReplace_self ("{number}") (by decide) (numeral_clean _ hN).2]
  refine ⟨heq, ?_⟩
  rw [heq]
  intro hcontra
  have hval := Option.some.inj hcontra
  have : ∀ m : Nat, m < 20 → toString (m+1) ≠ ("{number}" : String) := by decide
  exact this _ hN hval

/-- C5 counterexample: with the domain set to the number token and the
template being the lone domain placeholder, the rendered text is "1" (the
substituted domain text was rescanned and replaced by the later number
pass); under the claimed order-independent semantics it would be the
number token verbatim. -/
theorem substitution_not_order_independent :
    generateSingleOption r0 0 ("{number}") [] [("{domain}")] = some ("1")
    ∧ ("1" : String) ≠ ("{number}" : String) := by
  constructor <;> decide

/-! ### C9 — the default-template mix -/

theorem pickDefaultsAux_inv (r : RandSrc) (defs : List String) (count : Nat)
    (hne : defs ≠ []) :
    ∀ fuel j acc, acc.Nodup → acc.length ≤ count → (∀ x ∈ acc, x ∈ defs) →
      (pickDefaultsAux r defs count fuel j acc).Nodup
      ∧ (pickDefaultsAux r defs count fuel j acc).length ≤ count
      ∧ ∀ x ∈ pickDefaultsAux r defs count fuel j acc, x ∈ defs := by
  intro fuel
  induction fuel with
  | zero =>
    intro j acc h1 h2 h3
    exact ⟨h1, h2, h3⟩
  | succ n ih =>
    intro j acc h1 h2 h3
    by_cases hlt : acc.length < count
    · have hpos : 0 < defs.length := List.length_pos.mpr hne
      have htmem : defs.getD (r.draw j defs.length) ("") ∈ defs :=
        getD_mem_of_lt _ _ _ (r.draw_lt j defs.length hpos)
      have hstep : ∀ t : String, t ∈ defs →
          (if t ∈ acc then acc else acc ++ [t]).Nodup
          ∧ (if t ∈ acc then acc else acc ++ [t]).length ≤ count
          ∧ ∀ x ∈ (if t ∈ acc then acc else acc ++ [t]), x ∈ defs := by
        intro t ht
        by_cases hmem : t ∈ acc
        · simp only [if_pos hmem]
          exact ⟨h1, h2, h3⟩
        · simp only [if_neg hmem]
          refine ⟨by simp [List.nodup_append, h1, hmem], ?_, ?_⟩
          · simp only [List.length_append, List.length_singleton]
            omega
          · intro x hx
            rcases List.mem_append.mp hx with hx1 | hx2
            · exact h3 x hx1
            · rw [List.mem_singleton.mp hx2]
              exact ht
      simp only [pickDefaultsAux, if_pos hlt]
      exact ih (j+1) _ (hstep _ htmem).1 (hstep _ htmem).2.1 (hstep _ htmem).2.2
    · simp only [pickDefaultsAux, if_neg hlt]
      exact ⟨h1, h2, h3⟩

theorem getTemplates_unfold (m : Mappings) (d : String) (h : List String)
    (r : RandSrc) (k : Nat) (defData : CatData)
    (hnd : ("default" : String) ∉ detectDomainCategories (some m) d)
    (hl : List.lookup ("default") m.categories = some defData) :
    getTemplatesForDomain (some m) d h r k
      = categoryTemplates m (detectDomainCategories (some m) d)
          ++ pickDefaultsAux r defData.operators (defData.operators.length / 5)
               ((defData.operators.length / 5) * 10) k []
          ++ (if 2 < h.length then contextTemplates else []) := by
  have hc : (detectDomainCategories (some m) d).contains ("default") = false := by
    simpa using hnd
  by_cases h2 : 2 < h.length <;>
    simp [getTemplatesForDomain, hc, hl, h2, hnd, List.append_assoc]

/-- C9 (amended): when the matched categories exclude the default one and
a default category is configured, the returned list is the
category-derived templates followed by a duplicate-free random selection
of default operators of size AT MOST floor(len * 0.2) (the code floors,
and its budgeted rejection sampling may stop short of that size), then
the context templates. -/
theorem defaultMix_floor_subset (m : Mappings) (d : String) (r : RandSrc) (k : Nat)
    (h : List String) (defData : CatData)
    (hnd : ("default" : String) ∉ detectDomainCategories (some m) d)
    (hl : List.lookup ("default") m.categories = some defData) :
    ∃ sel : List String,
      getTemplatesForDomain (some m) d h r k
        = categoryTemplates m (detectDomainCategories (some m) d) ++ sel
            ++ (if 2 < h.length then contextTemplates else [])
      ∧ sel.Nodup
      ∧ sel.length ≤ defData.operators.length / 5
      ∧ ∀ t ∈ sel, t ∈ defData.operators := by
  refine ⟨pickDefaultsAux r defData.operators (defData.operators.length / 5)
      ((defData.operators.length / 5) * 10) k [], getTemplates_unfold m d h r k defData hnd hl,
      ?_⟩
  by_cases hdefs : defData.operators = []
  · rw [hdefs]
    norm_num [pickDefaultsAux]
  · have := pickDefaultsAux_inv r defData.operators (defData.operators.length / 5) hdefs
      ((defData.operators.length / 5) * 10) k [] List.nodup_nil (by simp) (by simp)
    exact this

/-- C9 counterexample: with eight default operators and one matched
category contributing one template, the spec's round(8 * 0.2) = 2 would
make the returned list 1 + 2 = 3 long, but the code floors (and draws
only floor(1.6) = 1 default), returning a 2-element list. -/
theorem defaultMix_not_round :
    getTemplatesForDomain (some mappings9) ("app") [] r0 0 = [("T1"), ("d1")]
    ∧ (getTemplatesForDomain (some mappings9) ("app") [] r0 0).length
        ≠ (categoryTemplates mappings9 (detectDomainCategories (some mappings9) ("app"))).length
          + specRound02 8 := by
  constructor <;> decide

/-- Witness for C9 at the concrete counterexample configuration. -/
theorem defaultMix_floor_subset_witness :
    ∃ sel : List String,
      getTemplatesForDomain (some mappings9) ("app") [] r0 0
        = categoryTemplates mappings9 (detectDomainCategories (some mappings9) ("app")) ++ sel
            ++ (if 2 < ([] : List String).length then contextTemplates else [])
      ∧ sel.Nodup
      ∧ sel.length ≤ (CatData.mk []
          ["d1", "d2", "d3", "d4", "d5", "d6", "d7", "d8"]).operators.length / 5
      ∧ ∀ t ∈ sel, t ∈ (CatData.mk []
          ["d1", "d2", "d3", "d4", "d5", "d6", "d7", "d8"]).operators :=
  defaultMix_floor_subset mappings9 ("app") r0 0 []
    (CatData.mk [] ["d1", "d2", "d3", "d4", "d5", "d6", "d7", "d8"])
    (by decide) (by decide)

/-! ### C8 — history-tree serialization round-trip -/

theorem natId_ne {a b : Nat} (h : a ≠ b) : natId a ≠ natId b := by
  intro heq
  have hlen : a + 1 = b + 1 := by
    have hdata := congrArg (fun s : String => s.data.length) heq
    simpa [natId] using hdata
  omega

theorem nodeAt_chain : ∀ (us : List String) (k : Nat) (t : String),
    ∃ tx : String,
      nodeAt (chainNode k t us) (List.replicate us.length 0)
        = some (HNode.mk (natId (k + us.length)) tx []) := by
  intro us
  induction us with
  | nil =>
    intro k t
    exact ⟨t, rfl⟩
  | cons u us' ih =>
    intro k t
    obtain ⟨tx, hx⟩ := ih (k+1) u
    refine ⟨tx, ?_⟩
    simp only [chainNode, List.length_cons, List.replicate_succ, nodeAt, List.get?]
    rw [show k + 1 + us'.length = k + (us'.length + 1) from by omega] at hx
    exact hx

theorem addChildAt_chain (v : String) : ∀ (us : List String) (k : Nat) (t : String),
    addChildAt (HNode.mk (natId (k + us.length + 1)) v []) (List.replicate us.length 0)
        (chainNode k t us)
      = chainNode k t (us ++ [v]) := by
  intro us
  induction us with
  | nil =>
    intro k t
    rfl
  | cons u us' ih =>
    intro k t
    simp only [chainNode, List.length_cons, List.replicate_succ, addChildAt, modifyIdx,
      List.cons_append]
    have := ih (k+1) u
    rw [show k + 1 + us'.length + 1 = k + (us'.length + 1) + 1 from by omega] at this
    rw [this]
    rfl

theorem accept_chainSession (k : Nat) (t : String) (us : List String) (v : String) :
    accept (chainSession k t us) v = chainSession k t (us ++ [v]) := by
  obtain ⟨tx, hnode⟩ := nodeAt_chain us k t
  simp only [accept, chainSession, hnode, HNode.children]
  rw [addChildAt_chain]
  simp only [List.length_nil, List.length_append, List.length_singleton]
  rw [show List.replicate us.length (0:Nat) ++ [0] = List.replicate (us.length + 1) (0:Nat)
    from (List.replicate_succ' _ _).symm]
  rw [show k + us.length + 1 + 1 = k + (us.length + 1) + 1 from by omega]

theorem buildSession_eq_chain (t : String) (us : List String) :
    buildSession (t :: us) = chainSession 0 t us := by
  have hgen : ∀ (vs us0 : List String),
      List.foldl accept (chainSession 0 t us0) vs = chainSession 0 t (us0 ++ vs) := by
    intro vs
    induction vs with
    | nil =>
      intro us0
      simp
    | cons v vs' ih =>
      intro us0
      rw [List.foldl_cons, accept_chainSession, ih]
      simp
  have h0 : accept emptySession t = chainSession 0 t [] := rfl
  unfold buildSession
  rw [List.foldl_cons, h0]
  simpa using hgen us []

theorem deserialize_serialize_chain : ∀ (us : List String) (k : Nat) (t : String),
    deserializeNode (serializeNode (chainNode k t us)) = chainNode k t us := by
  intro us
  induction us with
  | nil =>
    intro k t
    simp [chainNode, serializeNode, serializeChildren, deserializeNode, deserializeChildren]
  | cons u us' ih =>
    intro k t
    simp only [chainNode, serializeNode, serializeChildren, deserializeNode,
      deserializeChildren]
    rw [ih (k+1) u]

theorem findPath_chain : ∀ (us : List String) (k : Nat) (t : String),
    findPath (chainNode k t us) (natId (k + us.length))
      = some (List.replicate us.length 0) := by
  intro us
  induction us with
  | nil =>
    intro k t
    simp [chainNode, findPath]
  | cons u us' ih =>
    intro k t
    have hne : natId k ≠ natId (k + (us'.length + 1)) := natId_ne (by omega)
    simp only [chainNode, List.length_cons, findPath, if_neg hne, findPathChildren]
    have := ih (k+1) u
    rw [show k + 1 + us'.length = k + (us'.length + 1) from by omega] at this
    rw [this]
    simp [List.replicate_succ]

/-- C8: for every history tree built by a sequence of accept calls,
deserializing its serialization reproduces a session with an identical
tree (same ids, choice texts and parent/child shape) whose reconstructed
path from the root — the parent references being rebuilt by searching for
the serialized current-node id — equals the original one. -/
theorem historyTree_roundTrip (ts : List String) :
    ∃ s' : Session,
      deserialize (serialize (buildSession ts)) = some s'
      ∧ s'.root = (buildSession ts).root
      ∧ pathFromRoot s' = pathFromRoot (buildSession ts) := by
  cases ts with
  | nil =>
    exact ⟨⟨none, [], 0⟩, rfl, rfl, rfl⟩
  | cons t us =>
    rw [buildSession_eq_chain]
    refine ⟨⟨some (chainNode 0 t us), List.replicate us.length 0, 0⟩, ?_, rfl, rfl⟩
    obtain ⟨tx, hnode⟩ := nodeAt_chain us 0 t
    simp only [serialize, deserialize, chainSession, hnode, Option.map, HNode.id]
    rw [deserialize_serialize_chain, findPath_chain]

end IIG
